import Mathlib

/-!
Verification development for the Mark-II notation-resolution pipeline.

The definitions below are a shallow embedding of the two core source files:

* `src/services/solfegeParser.ts` (class `SolfegeParser`): tokenizing raw
  Tonic Sol-fa text, detecting a key directive, assigning lines to voices,
  resolving syllables to MIDI numbers and aligning measures; and
* the MIDI generator (class `MIDIGenerator`): serializing parts into a
  Standard MIDI File byte stream.

Text is modelled as `List Char` (JavaScript strings); JavaScript numbers
appearing here are small non-negative integers modelled as `Nat` (with `Int`
where a value can go negative, namely octave shifts).  JavaScript objects
used as string-keyed maps are modelled as association lists with
`List.lookup`.
-/

namespace MarkII

/-- Convert a string literal to the `List Char` representation used for all
modelled JavaScript strings. -/
def s2l (s : String) : List Char := s.data

/-- ASCII apostrophe (octave-up marker in the source, `"'"`). -/
def apos : Char := Char.ofNat 39

/-- Unicode right single quotation mark (the second octave-up marker glyph
accepted by the source). -/
def rquo : Char := Char.ofNat 8217

/-- Characters matched by the separator class `[\s.:]` used both by the
voice-indicator regexes and by the measure tokenizer split
`measureStr.split(/[\s.:]+/)`.  JavaScript `\s` also covers rarer Unicode
spaces; the model restricts to the ASCII whitespace of `Char.isWhitespace`. -/
def isSepChar (c : Char) : Bool := c.isWhitespace || c == '.' || c == ':'

/-- Octave-up markers stripped by the first `while` loop of
`parseNoteToken`: `'` and the right single quotation mark. -/
def isUpMark (c : Char) : Bool := c == apos || c == rquo

/-- Octave-down markers stripped by the second `while` loop of
`parseNoteToken`: `,` and `_`. -/
def isDownMark (c : Char) : Bool := c == ',' || c == '_'

/-- JavaScript `String.prototype.trim`: drop leading and trailing
whitespace. -/
def trim (l : List Char) : List Char :=
  ((l.dropWhile Char.isWhitespace).reverse.dropWhile Char.isWhitespace).reverse

/-- JavaScript `str.split(sep)` for a single-character separator: splits at
every occurrence of `sep`, keeping empty pieces (they are filtered later by
the callers, as in the source). -/
def splitOnChar (sep : Char) : List Char → List (List Char)
  | [] => [[]]
  | c :: cs =>
    if c == sep then [] :: splitOnChar sep cs
    else
      match splitOnChar sep cs with
      | [] => [[c]]
      | t :: ts => (c :: t) :: ts

/-- Accumulator loop for `splitTokens`: the accumulator holds the current
token reversed. -/
def splitTokensAux : List Char → List Char → List (List Char)
  | [], acc => if acc.isEmpty then [] else [acc.reverse]
  | c :: cs, acc =>
    if isSepChar c then
      if acc.isEmpty then splitTokensAux cs [] else acc.reverse :: splitTokensAux cs []
    else splitTokensAux cs (c :: acc)

/-- JavaScript `measureStr.split(/[\s.:]+/).filter(token => token.trim())`:
the non-empty maximal runs of non-separator characters. -/
def splitTokens (cs : List Char) : List (List Char) := splitTokensAux cs []

/-- JavaScript `str.includes(c)` for a single character. -/
def containsChar (l : List Char) (c : Char) : Bool := l.any (fun x => x == c)

/-- Case-insensitive prefix test, modelling a JavaScript regex `/^pat/i`
match of a literal alternative `pat` (stored lowercase) against `line`. -/
def startsWithCI : List Char → List Char → Bool
  | _, [] => true
  | [], _ :: _ => false
  | c :: cs, p :: ps => c.toLower == p && startsWithCI cs ps

/-- Strip trailing characters satisfying `p` from the end of `cs`, returning
the remainder and how many were stripped.  This models the source's
`while (cleanToken.endsWith(mark)) { counter++; cleanToken = cleanToken.slice(0, -1); }`
loops. -/
def stripTrailing (p : Char → Bool) (cs : List Char) : List Char × Nat :=
  ((cs.reverse.dropWhile p).reverse, (cs.reverse.takeWhile p).length)

/-- The four canonical voices.  The source keys its `parts` record and its
`vocalRanges` table by the strings `'soprano'`, `'alto'`, `'tenor'`,
`'bass'`; since only these four keys ever occur, they are modelled as an
inductive type. -/
inductive PartName
  | soprano
  | alto
  | tenor
  | bass
deriving DecidableEq

/-- Per-voice vocal range from the `vocalRanges` table: inclusive MIDI
interval plus default octave. -/
structure VocalRange where
  min : Nat
  max : Nat
  defaultOctave : Nat
deriving DecidableEq

/-- The `vocalRanges` table of the `SolfegeParser` constructor.  The source
falls back to the soprano entry for an unknown part name
(`this.vocalRanges[part] || this.vocalRanges.soprano`); with `PartName`
total over the four keys that fallback cannot fire. -/
def vocalRanges : PartName → VocalRange
  | .soprano => ⟨60, 81, 5⟩
  | .alto    => ⟨55, 76, 4⟩
  | .tenor   => ⟨48, 69, 4⟩
  | .bass    => ⟨36, 60, 3⟩

/-- A per-key solfège-degree to pitch-class-name map (one value of the
`keyMaps` table). -/
abbrev KeyMap := List (List Char × List Char)

/-- The C-major row of the `keyMaps` table. -/
def keyMapC : KeyMap :=
  [(s2l "do", s2l "C"), (s2l "re", s2l "D"), (s2l "mi", s2l "E"), (s2l "fa", s2l "F"),
   (s2l "sol", s2l "G"), (s2l "la", s2l "A"), (s2l "ti", s2l "B")]

/-- The `keyMaps` table of the `SolfegeParser` constructor. -/
def keyMaps : List (List Char × KeyMap) :=
  [(s2l "C", keyMapC),
   (s2l "G", [(s2l "do", s2l "G"), (s2l "re", s2l "A"), (s2l "mi", s2l "B"), (s2l "fa", s2l "C"),
              (s2l "sol", s2l "D"), (s2l "la", s2l "E"), (s2l "ti", s2l "F#")]),
   (s2l "D", [(s2l "do", s2l "D"), (s2l "re", s2l "E"), (s2l "mi", s2l "F#"), (s2l "fa", s2l "G"),
              (s2l "sol", s2l "A"), (s2l "la", s2l "B"), (s2l "ti", s2l "C#")]),
   (s2l "A", [(s2l "do", s2l "A"), (s2l "re", s2l "B"), (s2l "mi", s2l "C#"), (s2l "fa", s2l "D"),
              (s2l "sol", s2l "E"), (s2l "la", s2l "F#"), (s2l "ti", s2l "G#")]),
   (s2l "F", [(s2l "do", s2l "F"), (s2l "re", s2l "G"), (s2l "mi", s2l "A"), (s2l "fa", s2l "Bb"),
              (s2l "sol", s2l "C"), (s2l "la", s2l "D"), (s2l "ti", s2l "E")]),
   (s2l "Bb", [(s2l "do", s2l "Bb"), (s2l "re", s2l "C"), (s2l "mi", s2l "D"), (s2l "fa", s2l "Eb"),
               (s2l "sol", s2l "F"), (s2l "la", s2l "G"), (s2l "ti", s2l "A")]),
   (s2l "Eb", [(s2l "do", s2l "Eb"), (s2l "re", s2l "F"), (s2l "mi", s2l "G"), (s2l "fa", s2l "Ab"),
               (s2l "sol", s2l "Bb"), (s2l "la", s2l "C"), (s2l "ti", s2l "D")])]

/-- The `solfegeVariations` abbreviation table of the constructor. -/
def solfegeVariations : List (List Char × List Char) :=
  [(s2l "d", s2l "do"), (s2l "r", s2l "re"), (s2l "m", s2l "mi"), (s2l "f", s2l "fa"),
   (s2l "s", s2l "sol"), (s2l "l", s2l "la"), (s2l "t", s2l "ti"),
   (s2l "do", s2l "do"), (s2l "re", s2l "re"), (s2l "mi", s2l "mi"), (s2l "fa", s2l "fa"),
   (s2l "sol", s2l "sol"), (s2l "so", s2l "sol"), (s2l "la", s2l "la"),
   (s2l "ti", s2l "ti"), (s2l "si", s2l "ti")]

/-- The `pitchClassToMidiOffset` table of `findOptimalMidi`. -/
def pitchClassToMidiOffset : List (List Char × Nat) :=
  [(s2l "C", 0), (s2l "C#", 1), (s2l "Db", 1), (s2l "D", 2), (s2l "D#", 3), (s2l "Eb", 3),
   (s2l "E", 4), (s2l "F", 5), (s2l "F#", 6), (s2l "Gb", 6), (s2l "G", 7), (s2l "G#", 8),
   (s2l "Ab", 8), (s2l "A", 9), (s2l "A#", 10), (s2l "Bb", 10), (s2l "B", 11)]

/-- Embedding of `SolfegeParser.findOptimalMidi`: search octaves 2 through 6 in ascending
order for the first MIDI number `12*(octave+1) + noteIndex` inside the
voice's range, falling back to the default octave.  The source indexes
`pitchClassToMidiOffset[noteName]` unconditionally (all callers pass a name
from a key map); the model returns `none` for an unknown name. -/
def findOptimalMidi (noteName : List Char) (range : VocalRange) : Option Nat :=
  match pitchClassToMidiOffset.lookup noteName with
  | none => none
  | some noteIndex =>
    match (List.range' 2 5).find?
        (fun octave => decide (range.min ≤ 12 * (octave + 1) + noteIndex ∧
                               12 * (octave + 1) + noteIndex ≤ range.max)) with
    | some octave => some (12 * (octave + 1) + noteIndex)
    | none => some (12 * (range.defaultOctave + 1) + noteIndex)

/-- Embedding of `SolfegeParser.solfegeToMidiNote`: base MIDI from the octave search plus
`12 * octaveShift`. -/
def solfegeToMidiNote (solfege : List Char) (keyMapping : KeyMap) (part : PartName)
    (octaveShift : Int) : Option Int :=
  match keyMapping.lookup solfege with
  | none => none
  | some noteName =>
    (findOptimalMidi noteName (vocalRanges part)).map
      (fun baseMidi => (baseMidi : Int) + octaveShift * 12)

/-- A parsed note as built by `parseNoteToken` (pitched, `isRest = false`)
or by the rest measures of `alignMeasures` (`isRest = true`, with no MIDI
number and no octave, matching the source objects' absent fields). -/
structure NoteP where
  solfege : List Char
  noteName : List Char
  midiNumber : Option Int
  part : PartName
  octave : Option Int
  isRest : Bool
deriving DecidableEq

/-- A measure as produced by the parser: an ordered list of notes. -/
abbrev MeasureP := List NoteP

/-- The rest note object pushed by `alignMeasures`:
`{ solfege: 'rest', noteName: 'R', midiNumber: null, part, isRest: true }`. -/
def restNote (p : PartName) : NoteP :=
  { solfege := s2l "rest", noteName := s2l "R", midiNumber := none,
    part := p, octave := none, isRest := true }

/-- Embedding of `SolfegeParser.parseNoteToken`: lowercase the token, strip trailing
octave-up marks then trailing octave-down marks, normalize through
`solfegeVariations`, reject tokens whose normalization is unknown to the key
map, and otherwise build the pitched note record. -/
def parseNoteToken (token : List Char) (keyMapping : KeyMap) (part : PartName) :
    Option NoteP :=
  if token.isEmpty then none else
  let cleanToken0 := token.map Char.toLower
  let s1 := stripTrailing isUpMark cleanToken0
  let s2 := stripTrailing isDownMark s1.1
  let octaveShift : Int := (s1.2 : Int) - (s2.2 : Int)
  match solfegeVariations.lookup s2.1 with
  | none => none
  | some normalizedSolfege =>
    match keyMapping.lookup normalizedSolfege with
    | none => none
    | some noteName =>
      match solfegeToMidiNote normalizedSolfege keyMapping part octaveShift with
      | none => none
      | some midiNote =>
        some { solfege := normalizedSolfege, noteName := noteName,
               midiNumber := some midiNote, part := part,
               octave := some (Int.fdiv midiNote 12 - 1), isRest := false }

/-- Embedding of `SolfegeParser.parseMeasure`: split on separator runs, resolve the key
map (`this.keyMaps[key] || this.keyMaps['C']`), and keep the successfully
parsed tokens (`if (noteData) notes.push(noteData)`). -/
def parseMeasure (measureStr : List Char) (key : List Char) (part : PartName) :
    List NoteP :=
  let tokens := splitTokens measureStr
  let keyMapping := (keyMaps.lookup key).getD keyMapC
  tokens.filterMap (fun token => parseNoteToken token keyMapping part)

/-- Embedding of `SolfegeParser.parseMeasures`: split a line on `|`, drop blank measure
strings, parse each, and keep only non-empty measures. -/
def parseMeasures (line : List Char) (key : List Char) (part : PartName) :
    List MeasureP :=
  ((splitOnChar '|' line).filter (fun m => !(trim m).isEmpty)).filterMap
    (fun measureStr =>
      let notes := parseMeasure (trim measureStr) key part
      if notes.isEmpty then none else some notes)

/-- The alternatives of the four voice-indicator regexes
`/^(soprano|sop|s)[\s.:]+/i` etc., in the order the source iterates them. -/
def partPatterns : List (PartName × List (List Char)) :=
  [(.soprano, [s2l "soprano", s2l "sop", s2l "s"]),
   (.alto,    [s2l "alto", s2l "alt", s2l "a"]),
   (.tenor,   [s2l "tenor", s2l "ten", s2l "t"]),
   (.bass,    [s2l "bass", s2l "bas", s2l "b"])]

/-- Match one regex `/^(alt1|alt2|alt3)[\s.:]+/i` against `line`:
alternatives are tried left to right (JavaScript alternation order); a hit
needs the alternative as case-insensitive prefix followed by at least one
separator character, and the match length is the alternative plus the
maximal (greedy) separator run. -/
def matchAlts (line : List Char) : List (List Char) → Option (List Char × Nat)
  | [] => none
  | alt :: alts =>
    let sepsLen := ((line.drop alt.length).takeWhile isSepChar).length
    if startsWithCI line alt && sepsLen != 0 then some (alt, alt.length + sepsLen)
    else matchAlts line alts

/-- Iterate the four patterns of `detectPartIndicator` in order, applying
the single-letter `s`/`t` heuristic: such a match counts only when the whole
matched text contains a colon (`match[0].includes(':')`), and otherwise the
function returns null outright.  Because the alternatives are stored
lowercase and matched case-insensitively, comparing the matched alternative
with `s`/`t` is the source's `['s','t'].includes(indicator.toLowerCase())`. -/
def dpiLoop (line : List Char) : List (PartName × List (List Char)) →
    Option (PartName × Nat)
  | [] => none
  | (part, alts) :: rest =>
    match matchAlts line alts with
    | some (alt, len) =>
      if alt.length == 1 && (alt == ['s'] || alt == ['t']) then
        if containsChar (line.take len) ':' then some (part, len) else none
      else some (part, len)
    | none => dpiLoop line rest

/-- Embedding of `SolfegeParser.detectPartIndicator`. -/
def detectPartIndicator (line : List Char) : Option (PartName × Nat) :=
  dpiLoop line partPatterns

/-- Characters accepted by the `[A-G]` class under the `/i` flag of the key
directive regex. -/
def isKeyLetter (c : Char) : Bool := ('A' ≤ c && c ≤ 'G') || ('a' ≤ c && c ≤ 'g')

/-- Characters accepted by the `[b#]?` class under the `/i` flag. -/
def isAccidentalChar (c : Char) : Bool := c == 'b' || c == 'B' || c == '#'

/-- Try to match the directive regex `(?:Doh is|Key:)\s*([A-G][b#]?)` (flag
`i`) at the start of `cs`.  Returns the matched length together with the
captured tonic letter and optional accidental (in their original case).
As in `isSepChar`, the `\s*` run is modelled with `Char.isWhitespace`. -/
def matchDirectiveAt (cs : List Char) : Option (Nat × Char × Option Char) :=
  match (if startsWithCI cs (s2l "doh is") then some (s2l "doh is").length
         else if startsWithCI cs (s2l "key:") then some (s2l "key:").length
         else none) with
  | none => none
  | some k =>
    let rest := cs.drop k
    let wsLen := (rest.takeWhile Char.isWhitespace).length
    match rest.drop wsLen with
    | [] => none
    | c :: rest2 =>
      if isKeyLetter c then
        match rest2 with
        | a :: _ =>
          if isAccidentalChar a then some (k + wsLen + 2, c, some a)
          else some (k + wsLen + 1, c, none)
        | [] => some (k + wsLen + 1, c, none)
      else none

/-- Leftmost match of the directive regex anywhere in the text
(JavaScript `text.match(...)` semantics): scan positions left to right and
return the matched substring with the captured group. -/
def searchDirective : List Char → Option (List Char × Char × Option Char)
  | [] => none
  | c :: cs =>
    match matchDirectiveAt (c :: cs) with
    | some r => some ((c :: cs).take r.1, r.2.1, r.2.2)
    | none => searchDirective cs

/-- JavaScript `text.replace(pat, '')` for a literal string `pat`: remove
the first occurrence of `pat`. -/
def replaceFirstSub : List Char → List Char → List Char
  | [], _ => []
  | c :: cs, pat =>
    if (c :: cs).take pat.length == pat then (c :: cs).drop pat.length
    else c :: replaceFirstSub cs pat

/-- JavaScript `str.replace(tgt, rep)` for single characters: replace the
first occurrence. -/
def replaceFirstChar : List Char → Char → Char → List Char
  | [], _, _ => []
  | c :: cs, tgt, rep => if c == tgt then rep :: cs else c :: replaceFirstChar cs tgt rep

/-- Embedding of `SolfegeParser.detectKey`: find the directive, normalize the captured
tonic (`charAt(0).toUpperCase() + slice(1).toLowerCase().replace('s','#')`),
and if the normalized tonic names a known key map, return it together with
the text with the directive removed and trimmed; otherwise return key `C`
with the text untouched. -/
def detectKey (text : List Char) : List Char × List Char :=
  match searchDirective text with
  | none => (s2l "C", text)
  | some (m0, letter, accOpt) =>
    let key := letter.toUpper :: replaceFirstChar (accOpt.toList.map Char.toLower) 's' '#'
    if (keyMaps.lookup key).isSome then (key, trim (replaceFirstSub text m0))
    else (s2l "C", text)

/-- The `parts` record built during `parse`: one measure list per voice, in
the source's key order. -/
structure Parts where
  soprano : List MeasureP
  alto : List MeasureP
  tenor : List MeasureP
  bass : List MeasureP
deriving DecidableEq

/-- The initial `parts` record `{ soprano: [], alto: [], tenor: [], bass: [] }`. -/
def emptyParts : Parts := ⟨[], [], [], []⟩

/-- The source's `parts[partName].push(...measures)`. -/
def pushMeasures (ps : Parts) (p : PartName) (ms : List MeasureP) : Parts :=
  match p with
  | .soprano => { ps with soprano := ps.soprano ++ ms }
  | .alto => { ps with alto := ps.alto ++ ms }
  | .tenor => { ps with tenor := ps.tenor ++ ms }
  | .bass => { ps with bass := ps.bass ++ ms }

/-- The `partOrder` array `['soprano','alto','tenor','bass']`; indexed with
`sequentialPartIndex % 4`, so only indices 0 through 3 occur. -/
def partOrder : Nat → PartName
  | 0 => .soprano
  | 1 => .alto
  | 2 => .tenor
  | _ => .bass

/-- Mode 1 of `parse` (explicit indicators): fold over the trimmed lines
paired with their `detectPartIndicator` result, carrying
`lastExplicitPart`.  An indicator line sets the current part and contributes
the measures of the text after the indicator; a plain line continues the
current part; a plain line before any indicator is skipped. -/
def processExplicit (effectiveKey : List Char) :
    List (List Char × Option (PartName × Nat)) → Option PartName → Parts → Parts
  | [], _, parts => parts
  | (line, mtch) :: rest, lastPart, parts =>
    match mtch with
    | some (p, len) =>
      processExplicit effectiveKey rest (some p)
        (pushMeasures parts p (parseMeasures (trim (line.drop len)) effectiveKey p))
    | none =>
      match lastPart with
      | some p =>
        processExplicit effectiveKey rest (some p)
          (pushMeasures parts p (parseMeasures line effectiveKey p))
      | none => processExplicit effectiveKey rest none parts

/-- Mode 2 of `parse` (no indicators anywhere): assign lines round-robin in
Soprano, Alto, Tenor, Bass order via `partOrder[sequentialPartIndex % 4]`. -/
def processPositional (effectiveKey : List Char) :
    List (List Char) → Nat → Parts → Parts
  | [], _, parts => parts
  | line :: rest, i, parts =>
    let partName := partOrder (i % 4)
    processPositional effectiveKey rest (i + 1)
      (pushMeasures parts partName (parseMeasures (trim line) effectiveKey partName))

/-- The mode dispatch of `parse`: compute `linesWithIndicators`, and enter
explicit mode when any line has an indicator, positional mode otherwise. -/
def buildParts (effectiveKey : List Char) (lines : List (List Char)) : Parts :=
  let lws := lines.map (fun line => (trim line, detectPartIndicator (trim line)))
  if lws.any (fun lw => lw.2.isSome) then processExplicit effectiveKey lws none emptyParts
  else processPositional effectiveKey lines 0 emptyParts

/-- One voice of `SolfegeParser.alignMeasures`: for indices below the
voice's measure count keep the measure, above it push the rest measure. -/
def alignPart (p : PartName) (measures : List MeasureP) (measureCount : Nat) :
    List MeasureP :=
  (List.range measureCount).map (fun i => measures.getD i [restNote p])

/-- Embedding of `SolfegeParser.alignMeasures`, iterating the four voices in the
source's key order. -/
def alignMeasures (ps : Parts) (measureCount : Nat) : Parts :=
  ⟨alignPart .soprano ps.soprano measureCount,
   alignPart .alto ps.alto measureCount,
   alignPart .tenor ps.tenor measureCount,
   alignPart .bass ps.bass measureCount⟩

/-- The measure count used by `parse`:
`Math.max(0, ...Object.values(parts).map(p => p.length))`. -/
def maxCount (ps : Parts) : Nat :=
  Nat.max 0 (Nat.max (Nat.max ps.soprano.length ps.alto.length)
                     (Nat.max ps.tenor.length ps.bass.length))

/-- The final two lines of `parse`: align all voices to the maximum measure
count. -/
def alignOut (ps : Parts) : Parts := alignMeasures ps (maxCount ps)

/-- Embedding of `SolfegeParser.parse(solfegeText, key = 'C')`.  The default argument is
modelled by the caller passing `s2l "C"`.  `effectiveKey = key || detectedKey`
takes the detected key only when `key` is the empty (falsy) string. -/
def parse (solfegeText : List Char) (key : List Char) : Parts :=
  let dk := detectKey solfegeText
  let effectiveKey := if key.isEmpty then dk.1 else key
  let lines := (splitOnChar '\n' dk.2).filter
    (fun line => !(trim line).isEmpty && !((trim line).take 2 == s2l "//"))
  alignOut (buildParts effectiveKey lines)

/-- The note duration union type of `types.ts`
(`'whole' | 'half' | 'quarter' | 'eighth' | 'sixteenth'`). -/
inductive Duration
  | whole
  | half
  | quarter
  | eighth
  | sixteenth
deriving DecidableEq

/-- The `Note` record of `types.ts`: a pitch string such as `"C4"` or `"rest"` plus a
duration. -/
structure NoteG where
  pitch : String
  duration : Duration
deriving DecidableEq

/-- The `Measure` record of `types.ts`. -/
structure MeasureG where
  notes : List NoteG
deriving DecidableEq

/-- The `Part` record consumed by `MIDIGenerator.generateMIDI`: a part name and its
measures. -/
structure PartG where
  partName : String
  measures : List MeasureG
deriving DecidableEq

/-- The `PITCH_TO_MIDI` table of the MIDI generator module. -/
def PITCH_TO_MIDI : List (String × Nat) :=
  [("C0", 12), ("C#0", 13), ("Db0", 13), ("D0", 14), ("D#0", 15), ("Eb0", 15), ("E0", 16),
   ("F0", 17), ("F#0", 18), ("Gb0", 18), ("G0", 19), ("G#0", 20), ("Ab0", 20), ("A0", 21),
   ("A#0", 22), ("Bb0", 22), ("B0", 23),
   ("C1", 24), ("C#1", 25), ("Db1", 25), ("D1", 26), ("D#1", 27), ("Eb1", 27), ("E1", 28),
   ("F1", 29), ("F#1", 30), ("Gb1", 30), ("G1", 31), ("G#1", 32), ("Ab1", 32), ("A1", 33),
   ("A#1", 34), ("Bb1", 34), ("B1", 35),
   ("C2", 36), ("C#2", 37), ("Db2", 37), ("D2", 38), ("D#2", 39), ("Eb2", 39), ("E2", 40),
   ("F2", 41), ("F#2", 42), ("Gb2", 42), ("G2", 43), ("G#2", 44), ("Ab2", 44), ("A2", 45),
   ("A#2", 46), ("Bb2", 46), ("B2", 47),
   ("C3", 48), ("C#3", 49), ("Db3", 49), ("D3", 50), ("D#3", 51), ("Eb3", 51), ("E3", 52),
   ("F3", 53), ("F#3", 54), ("Gb3", 54), ("G3", 55), ("G#3", 56), ("Ab3", 56), ("A3", 57),
   ("A#3", 58), ("Bb3", 58), ("B3", 59),
   ("C4", 60), ("C#4", 61), ("Db4", 61), ("D4", 62), ("D#4", 63), ("Eb4", 63), ("E4", 64),
   ("F4", 65), ("F#4", 66), ("Gb4", 66), ("G4", 67), ("G#4", 68), ("Ab4", 68), ("A4", 69),
   ("A#4", 70), ("Bb4", 70), ("B4", 71),
   ("C5", 72), ("C#5", 73), ("Db5", 73), ("D5", 74), ("D#5", 75), ("Eb5", 75), ("E5", 76),
   ("F5", 77), ("F#5", 78), ("Gb5", 78), ("G5", 79), ("G#5", 80), ("Ab5", 80), ("A5", 81),
   ("A#5", 82), ("Bb5", 82), ("B5", 83),
   ("C6", 84), ("C#6", 85), ("Db6", 85), ("D6", 86), ("D#6", 87), ("Eb6", 87), ("E6", 88),
   ("F6", 89), ("F#6", 90), ("Gb6", 90), ("G6", 91), ("G#6", 92), ("Ab6", 92), ("A6", 93),
   ("A#6", 94), ("Bb6", 94), ("B6", 95),
   ("C7", 96), ("C#7", 97), ("Db7", 97), ("D7", 98), ("D#7", 99), ("Eb7", 99), ("E7", 100),
   ("F7", 101), ("F#7", 102), ("Gb7", 102), ("G7", 103), ("G#7", 104), ("Ab7", 104),
   ("A7", 105), ("A#7", 106), ("Bb7", 106), ("B7", 107),
   ("C8", 108), ("C#8", 109), ("Db8", 109), ("D8", 110), ("D#8", 111), ("Eb8", 111),
   ("E8", 112), ("F8", 113), ("F#8", 114), ("Gb8", 114), ("G8", 115), ("G#8", 116),
   ("Ab8", 116), ("A8", 117), ("A#8", 118), ("Bb8", 118), ("B8", 119)]

/-- Embedding of `pitchToMidiNumber`: `PITCH_TO_MIDI[pitch] || null`.  No table value is
zero, so the JavaScript falsiness of `0` cannot fire and `List.lookup` is an
exact model. -/
def pitchToMidiNumber (pitch : String) : Option Nat := PITCH_TO_MIDI.lookup pitch

/-- Embedding of `MIDIGenerator.durationToTicks` (96 ticks per quarter note).  The
`default` branch of the source `switch` is unreachable for the closed
`Duration` type. -/
def durationToTicks (duration : Duration) : Nat :=
  match duration with
  | .whole => 96 * 4
  | .half => 96 * 2
  | .quarter => 96
  | .eighth => 96 / 2
  | .sixteenth => 96 / 4

/-- The loop of `MIDIGenerator.writeVariableLength`, building the byte list
least-significant group first: `byte = v & 0x7F` is `v % 128`, `v >>= 7`,
and `byte |= 0x80` (on every byte but the first pushed) is `+ 128`.
The loop runs once per base-128 digit, so a structural fuel of `v`
iterations (the value strictly shrinks under `>>> 7`) always suffices. -/
def vlqLoop : Nat → Nat → List Nat → List Nat
  | 0, _, buffer => buffer
  | fuel + 1, v, buffer =>
    if v = 0 then buffer
    else vlqLoop fuel (v >>> 7) (buffer ++ [v % 128 + (if buffer.length > 0 then 128 else 0)])

/-- Embedding of `MIDIGenerator.writeVariableLength`: `0` encodes as the single byte
`0x00`; otherwise the pushed groups are reversed into most-significant-first
order. -/
def writeVariableLength (value : Nat) : List Nat :=
  if value = 0 then [0] else (vlqLoop value value []).reverse

/-- Embedding of `MIDIGenerator.writeTempo`: 3 big-endian bytes of the microseconds per
beat. -/
def writeTempo (microsecondsPerBeat : Nat) : List Nat :=
  [microsecondsPerBeat >>> 16 % 256, microsecondsPerBeat >>> 8 % 256,
   microsecondsPerBeat % 256]

/-- Embedding of `MIDIGenerator.write32Bit`: 4 big-endian bytes. -/
def write32Bit (value : Nat) : List Nat :=
  [value >>> 24 % 256, value >>> 16 % 256, value >>> 8 % 256, value % 256]

/-- The `notes.forEach` loop of `MIDIGenerator.createTrackChunk` as a fold
carrying `accumulatedDeltaTicks`: rests (and pitches missing from
`PITCH_TO_MIDI`) only add their ticks to the accumulator; a resolvable note
emits a delta-time-prefixed Note-On (status `0x90`, velocity `0x64`)
followed by a duration-delta Note-Off (status `0x80`, velocity `0x00`) and
resets the accumulator. -/
def createTrackChunkEvents : List NoteG → Nat → List Nat
  | [], _ => []
  | note :: rest, accumulatedDeltaTicks =>
    let durationTicks := durationToTicks note.duration
    if note.pitch = "rest" then
      createTrackChunkEvents rest (accumulatedDeltaTicks + durationTicks)
    else
      match pitchToMidiNumber note.pitch with
      | none => createTrackChunkEvents rest (accumulatedDeltaTicks + durationTicks)
      | some midiNumber =>
        writeVariableLength accumulatedDeltaTicks ++ [0x90, midiNumber, 0x64] ++
        writeVariableLength durationTicks ++ [0x80, midiNumber, 0x00] ++
        createTrackChunkEvents rest 0

/-- Embedding of `MIDIGenerator.createTrackChunk`: optional tempo meta event, the note
events, the end-of-track meta event, and the `MTrk` header with the event
byte length. -/
def createTrackChunk (measures : List MeasureG) (tempo : Option Nat) : List Nat :=
  let notes := (measures.map MeasureG.notes).flatten
  let tempoData : List Nat :=
    match tempo with
    | some t =>
      writeVariableLength 0 ++ [0xFF, 0x51, 0x03] ++ writeTempo (60000000 / t)
    | none => []
  let eventData :=
    tempoData ++ createTrackChunkEvents notes 0 ++ writeVariableLength 0 ++ [0xFF, 0x2F, 0x00]
  [0x4D, 0x54, 0x72, 0x6B] ++ write32Bit eventData.length ++ eventData

/-- Embedding of `MIDIGenerator.createMidiHeader`: `MThd`, length 6, format 1, the track
count as 2 big-endian bytes, division 96. -/
def createMidiHeader (numTracks : Nat) : List Nat :=
  [0x4D, 0x54, 0x68, 0x64, 0x00, 0x00, 0x00, 0x06, 0x00, 0x01,
   numTracks >>> 8 % 256, numTracks % 256, 0x00, 0x60]

/-- JavaScript `toLowerCase` on the ASCII part names used here. -/
def strToLower (s : String) : String := String.mk (s.data.map Char.toLower)

/-- Embedding of `MIDIGenerator.generateMIDI`: filter to the target part when one is
named (and not `'all'`), return an empty buffer when no parts remain, and
otherwise concatenate the header with the track chunks, the tempo event
going only into the first track.  An `undefined` target is `none`; the
JavaScript falsiness of an empty target string is not modelled (no caller
passes one). -/
def generateMIDI (parts : List PartG) (tempo : Nat) (targetPartName : Option String) :
    List Nat :=
  let partsToProcess :=
    match targetPartName with
    | some t =>
      if strToLower t ≠ "all" then
        parts.filter (fun p : PartG => strToLower p.partName == strToLower t)
      else parts
    | none => parts
  if partsToProcess.length = 0 then []
  else
    createMidiHeader partsToProcess.length ++
    (partsToProcess.enum.map
      (fun ip : Nat × PartG => createTrackChunk ip.2.measures (if ip.1 = 0 then some tempo else none))).flatten

/-- Modelled from the spec (§4.5/§8, VLQ): the decoder for the
variable-length-quantity scheme — fold over the bytes most-significant group
first, taking the low 7 bits of each byte. -/
def vlqDecode (bs : List Nat) : Nat :=
  bs.foldl (fun acc b => acc * 128 + b % 128) 0

/-- Modelled from the spec (§4.5, Note events): the tick values
quarter = 96, with whole/half/eighth/sixteenth scaling by ×4, ×2, ÷2, ÷4. -/
def specTicks : Duration → Nat
  | .quarter => 96
  | .whole => 96 * 4
  | .half => 96 * 2
  | .eighth => 96 / 2
  | .sixteenth => 96 / 4

/-- Modelled from the spec (§4.5, Note events): for each non-rest note, a
Note-On (`0x90`, pitch, velocity 100) at the accumulated rest-delta since
the previous event, immediately followed by a Note-Off (`0x80`, pitch,
velocity 0) at the note's duration in ticks; rests only accumulate their
tick-durations into the next Note-On's delta.  The pitch byte is the note's
MIDI number (the equivalence theorem assumes every non-rest pitch has
one). -/
def specNoteEvents : List NoteG → Nat → List Nat
  | [], _ => []
  | note :: rest, pendingRestTicks =>
    if note.pitch = "rest" then
      specNoteEvents rest (pendingRestTicks + specTicks note.duration)
    else
      writeVariableLength pendingRestTicks ++
      [0x90, (pitchToMidiNumber note.pitch).getD 0, 100] ++
      writeVariableLength (specTicks note.duration) ++
      [0x80, (pitchToMidiNumber note.pitch).getD 0, 0] ++
      specNoteEvents rest 0

/-- Helper for reasoning about `writeVariableLength`: the bytes pushed by
`vlqLoop` once the buffer is non-empty, least-significant group first, each
with the high bit (`+ 128`) set, with the same structural fuel. -/
def highGroups : Nat → Nat → List Nat
  | 0, _ => []
  | fuel + 1, v => if v = 0 then [] else (v % 128 + 128) :: highGroups fuel (v >>> 7)

/-- Helper predicate for octave-marker reasoning: the last character of a
token body is neither an octave-up nor an octave-down marker (true for every
key of `solfegeVariations`). -/
def lastCharSafe (l : List Char) : Bool :=
  match l.reverse.head? with
  | none => true
  | some c => !isUpMark c && !isDownMark c

/-- The voice selected by `detectPartIndicator` for a single-letter `s`/`t`
line (statement helper for the indicator characterization). -/
def partFor (c : Char) : PartName := if c.toLower = 's' then .soprano else .tenor

/-!  Helper lemmas. -/

/-- Skipping over `none` results keeps only the `isSome` positions. -/
theorem length_filterMap_isSome {α β : Type} (f : α → Option β) :
    ∀ l : List α, (l.filterMap f).length = (l.filter (fun a => (f a).isSome)).length := by
  intro l
  induction l with
  | nil => rfl
  | cons a t ih =>
    cases hfa : f a <;>
      simp [List.filterMap_cons, List.filter_cons, hfa, ih]

/-- Reading list elements with a default through `List.range` pads the list
with the default value. -/
theorem getD_range {α : Type} (d : α) :
    ∀ (ms : List α) (n : Nat),
      (List.range n).map (fun i => ms.getD i d) =
        ms.take n ++ List.replicate (n - ms.length) d := by
  intro ms
  induction ms with
  | nil => intro n; simp [List.map_const']
  | cons a t ih =>
    intro n
    cases n with
    | zero => simp
    | succ m =>
      rw [List.range_succ_eq_map]
      simp only [List.map_cons, List.map_map, Function.comp_def, List.getD_cons_zero,
        List.getD_cons_succ]
      have hm := ih m
      simp only [List.take_succ_cons, List.length_cons, Nat.succ_sub_succ, List.cons_append,
        List.cons.injEq, true_and]
      simpa [List.getD_eq_getElem?_getD] using hm

/-- Every note built by `parseNoteToken` is pitched, never a rest. -/
theorem parseNoteToken_not_rest (token : List Char) (km : KeyMap) (part : PartName)
    (n : NoteP) (h : parseNoteToken token km part = some n) : n.isRest = false := by
  unfold parseNoteToken at h
  split at h
  · simp at h
  · dsimp only at h
    split at h
    · simp at h
    · split at h
      · simp at h
      · split at h
        · simp at h
        · simp only [Option.some.injEq] at h
          subst h
          rfl

/-- A successful association-list lookup means the key occurs among the
keys. -/
theorem lookup_mem_keys {α β : Type} [BEq α] [LawfulBEq α] :
    ∀ (l : List (α × β)) (a : α) (b : β),
      l.lookup a = some b → a ∈ l.map Prod.fst := by
  intro l a b h
  induction l with
  | nil => simp [List.lookup] at h
  | cons p t ih =>
    rw [List.lookup] at h
    split at h
    · next heq => simp_all [beq_iff_eq]
    · simp [ih h]

/-!  C1. -/

/-- Claim C1 (code evaluation at the failing input): for the input
`"Doh is G\nd r m"` parsed with the default key argument `'C'`,
`detectKey` does extract key `G` and removes the directive, but the
syllables are nevertheless resolved with the C-major table
(do→C 60, re→D 62, mi→E 64, not do→G as the claim requires), because
`effectiveKey = key || detectedKey` always sees the truthy default `'C'`. -/
theorem c1_code_eval :
    (detectKey (s2l "Doh is G\nd r m")).1 = s2l "G" ∧
    (detectKey (s2l "Doh is G\nd r m")).2 = s2l "d r m" ∧
    (parse (s2l "Doh is G\nd r m") (s2l "C")).soprano.map
        (fun m => m.map (fun n => (n.noteName, n.midiNumber))) =
      [[(s2l "C", some 60), (s2l "D", some 62), (s2l "E", some 64)]] := by
  refine ⟨by decide, by decide, by decide⟩

/-!  C2. -/

/-- Claim C2 (counterexample): in the measure `"d x m"` the unparseable
token `x` is simply omitted — the parsed measure has the two pitched notes
`do` and `mi` and no rest in the middle position, contradicting the claim
that a rest of default duration is inserted there. -/
theorem c2_counterexample :
    parseMeasure (s2l "d x m") (s2l "C") PartName.soprano =
      [{ solfege := s2l "do", noteName := s2l "C", midiNumber := some 60,
         part := .soprano, octave := some 4, isRest := false },
       { solfege := s2l "mi", noteName := s2l "E", midiNumber := some 64,
         part := .soprano, octave := some 4, isRest := false }] := by
  decide

/-- Claim C2 (amended): a token that does not resolve to a note is omitted
from the measure — the parsed measure consists exactly of the notes of the
resolvable tokens (its length is the number of resolvable tokens), none of
which is a rest, and no error is raised. -/
theorem c2_amended (measureStr key : List Char) (part : PartName) :
    (parseMeasure measureStr key part).all (fun n => !n.isRest) = true ∧
    (parseMeasure measureStr key part).length =
      ((splitTokens measureStr).filter
        (fun token =>
          (parseNoteToken token ((keyMaps.lookup key).getD keyMapC) part).isSome)).length := by
  constructor
  · simp only [List.all_eq_true, parseMeasure]
    intro n hn
    simp only [List.mem_filterMap] at hn
    obtain ⟨token, _, htok⟩ := hn
    simp [parseNoteToken_not_rest _ _ _ _ htok]
  · exact length_filterMap_isSome _ _

/-!  C3. -/

/-- Claim C3 (counterexample): a piece with one voice holding a single rest
(no sounding note anywhere) yields a 33-byte well-formed MIDI file starting
with `MThd`, not an empty buffer. -/
theorem c3_counterexample :
    (generateMIDI [⟨"soprano", [⟨[⟨"rest", Duration.quarter⟩]⟩]⟩] 120 none).length = 33 ∧
    (generateMIDI [⟨"soprano", [⟨[⟨"rest", Duration.quarter⟩]⟩]⟩] 120 none).take 4 =
      [0x4D, 0x54, 0x68, 0x64] := by
  decide

/-- Claim C3 (amended): with no target part named, `generateMIDI` returns an
empty buffer exactly when the part list itself is empty; voices that exist
but hold only rests still produce a (note-event-free) MIDI file. -/
theorem c3_amended (parts : List PartG) (tempo : Nat) :
    generateMIDI parts tempo none = [] ↔ parts = [] := by
  cases parts with
  | nil => simp [generateMIDI]
  | cons p ps => simp [generateMIDI, createMidiHeader]

/-!  C9. -/

/-- One aligned voice is the original measure list padded at the end with
rest measures. -/
theorem alignPart_eq (p : PartName) (ms : List MeasureP) (n : Nat) (h : ms.length ≤ n) :
    alignPart p ms n = ms ++ List.replicate (n - ms.length) [restNote p] := by
  unfold alignPart
  rw [getD_range, List.take_of_length_le h]

/-- Every voice's measure count is at most the `parse` measure count. -/
theorem parts_le_maxCount (ps : Parts) :
    ps.soprano.length ≤ maxCount ps ∧ ps.alto.length ≤ maxCount ps ∧
    ps.tenor.length ≤ maxCount ps ∧ ps.bass.length ≤ maxCount ps := by
  unfold maxCount
  refine ⟨?_, ?_, ?_, ?_⟩
  · exact le_trans (le_trans (Nat.le_max_left _ _) (Nat.le_max_left _ _)) (Nat.le_max_right _ _)
  · exact le_trans (le_trans (Nat.le_max_right _ _) (Nat.le_max_left _ _)) (Nat.le_max_right _ _)
  · exact le_trans (le_trans (Nat.le_max_left _ _) (Nat.le_max_right _ _)) (Nat.le_max_right _ _)
  · exact le_trans (le_trans (Nat.le_max_right _ _) (Nat.le_max_right _ _)) (Nat.le_max_right _ _)

/-- After the final alignment step of `parse`, the four voices all have the
same measure count. -/
theorem alignOut_len_eq (ps : Parts) :
    (alignOut ps).soprano.length = (alignOut ps).alto.length ∧
    (alignOut ps).alto.length = (alignOut ps).tenor.length ∧
    (alignOut ps).tenor.length = (alignOut ps).bass.length := by
  obtain ⟨h1, h2, h3, h4⟩ := parts_le_maxCount ps
  unfold alignOut alignMeasures
  simp only [alignPart_eq _ _ _ h1, alignPart_eq _ _ _ h2, alignPart_eq _ _ _ h3,
    alignPart_eq _ _ _ h4, List.length_append, List.length_replicate]
  omega

/-- Claim C9: aligning at the maximum measure count gives every voice
exactly the original measures followed by rest-only padding measures, so all
four voices end at the same count (the maximum), and in every `parse` result
the four voices have equal measure counts. -/
theorem c9_alignment (ps : Parts) (text key : List Char) :
    (alignMeasures ps (maxCount ps)).soprano =
        ps.soprano ++ List.replicate (maxCount ps - ps.soprano.length) [restNote .soprano] ∧
    (alignMeasures ps (maxCount ps)).alto =
        ps.alto ++ List.replicate (maxCount ps - ps.alto.length) [restNote .alto] ∧
    (alignMeasures ps (maxCount ps)).tenor =
        ps.tenor ++ List.replicate (maxCount ps - ps.tenor.length) [restNote .tenor] ∧
    (alignMeasures ps (maxCount ps)).bass =
        ps.bass ++ List.replicate (maxCount ps - ps.bass.length) [restNote .bass] ∧
    (alignMeasures ps (maxCount ps)).soprano.length = maxCount ps ∧
    (alignMeasures ps (maxCount ps)).alto.length = maxCount ps ∧
    (alignMeasures ps (maxCount ps)).tenor.length = maxCount ps ∧
    (alignMeasures ps (maxCount ps)).bass.length = maxCount ps ∧
    (∀ p : PartName, (restNote p).isRest = true) ∧
    ((parse text key).soprano.length = (parse text key).alto.length ∧
     (parse text key).alto.length = (parse text key).tenor.length ∧
     (parse text key).tenor.length = (parse text key).bass.length) := by
  obtain ⟨h1, h2, h3, h4⟩ := parts_le_maxCount ps
  refine ⟨?_, ?_, ?_, ?_, ?_, ?_, ?_, ?_, fun p => rfl, ?_⟩
  · exact alignPart_eq _ _ _ h1
  · exact alignPart_eq _ _ _ h2
  · exact alignPart_eq _ _ _ h3
  · exact alignPart_eq _ _ _ h4
  · rw [show (alignMeasures ps (maxCount ps)).soprano = alignPart .soprano ps.soprano (maxCount ps) from rfl,
      alignPart_eq _ _ _ h1]
    simp only [List.length_append, List.length_replicate]
    omega
  · rw [show (alignMeasures ps (maxCount ps)).alto = alignPart .alto ps.alto (maxCount ps) from rfl,
      alignPart_eq _ _ _ h2]
    simp only [List.length_append, List.length_replicate]
    omega
  · rw [show (alignMeasures ps (maxCount ps)).tenor = alignPart .tenor ps.tenor (maxCount ps) from rfl,
      alignPart_eq _ _ _ h3]
    simp only [List.length_append, List.length_replicate]
    omega
  · rw [show (alignMeasures ps (maxCount ps)).bass = alignPart .bass ps.bass (maxCount ps) from rfl,
      alignPart_eq _ _ _ h4]
    simp only [List.length_append, List.length_replicate]
    omega
  · exact alignOut_len_eq _

/-!  C10. -/

/-- Claim C10: in explicit mode, every line before the first
indicator-bearing line is silently discarded — running the explicit-mode
loop over indicator-free lines followed by the remaining lines (with
`lastExplicitPart` still null) equals running it over the remaining lines
alone; concretely, parsing `"l t\ns: d"` yields a piece in which the notes
of the leading line `"l t"` appear nowhere. -/
theorem c10_discard (effectiveKey : List Char)
    (pre rest : List (List Char × Option (PartName × Nat))) (parts : Parts)
    (h : ∀ lw ∈ pre, lw.2 = none) :
    processExplicit effectiveKey (pre ++ rest) none parts =
      processExplicit effectiveKey rest none parts ∧
    parse (s2l "l t\ns: d") (s2l "C") =
      ⟨[[{ solfege := s2l "do", noteName := s2l "C", midiNumber := some 60,
           part := .soprano, octave := some 4, isRest := false }]],
       [[restNote .alto]], [[restNote .tenor]], [[restNote .bass]]⟩ := by
  constructor
  · induction pre with
    | nil => rfl
    | cons lw t ih =>
      have h0 : lw.2 = none := h lw (by simp)
      obtain ⟨line, mtch⟩ := lw
      simp only at h0
      subst h0
      simp only [List.cons_append, processExplicit]
      exact ih (fun x hx => h x (by simp [hx]))
  · decide

/-- Witness for C10 at a concrete input: a leading indicator-free line is
dropped by the explicit-mode loop. -/
theorem c10_discard_witness :
    (∀ lw ∈ [(s2l "d r m", (none : Option (PartName × Nat)))], lw.2 = none) ∧
    processExplicit (s2l "C")
        ([(s2l "d r m", none)] ++ [(s2l "s: d", some (.soprano, 3))]) none emptyParts =
      processExplicit (s2l "C") [(s2l "s: d", some (.soprano, 3))] none emptyParts :=
  ⟨by decide,
   (c10_discard (s2l "C") [(s2l "d r m", none)] [(s2l "s: d", some (.soprano, 3))]
     emptyParts (by decide)).1⟩

/-!  C6. -/

/-- The `v >>= 7` of the VLQ loop is division by 128. -/
theorem shiftRight7_eq (v : Nat) : v >>> 7 = v / 128 := by
  rw [Nat.shiftRight_eq_div_pow]

/-- Once the buffer is non-empty, `vlqLoop` appends exactly the high-bit
groups. -/
theorem vlqLoop_append : ∀ (fuel v : Nat) (buf : List Nat), buf ≠ [] →
    vlqLoop fuel v buf = buf ++ highGroups fuel v := by
  intro fuel
  induction fuel with
  | zero => intro v buf _; simp [vlqLoop, highGroups]
  | succ f ih =>
    intro v buf hbuf
    by_cases hv : v = 0
    · simp [vlqLoop, highGroups, hv]
    · have hlen : 0 < buf.length := List.length_pos.mpr hbuf
      rw [vlqLoop, highGroups, if_neg hv, if_neg hv, if_pos hlen,
        ih _ _ (by simp), List.append_assoc]
      rfl

/-- Every byte in the high-bit groups has its high bit set and fits in one
byte. -/
theorem highGroups_mem_bounds : ∀ (fuel v b : Nat),
    b ∈ highGroups fuel v → 128 ≤ b ∧ b < 256 := by
  intro fuel
  induction fuel with
  | zero => intro v b hb; simp [highGroups] at hb
  | succ f ih =>
    intro v b hb
    rw [highGroups] at hb
    by_cases hv : v = 0
    · simp [hv] at hb
    · rw [if_neg hv] at hb
      rcases List.mem_cons.mp hb with h | h
      · have := Nat.mod_lt v (show 0 < 128 by norm_num)
        omega
      · exact ih _ _ h


/-- Decoding the (reversed, hence most-significant-first) high-bit groups
recovers the value, provided the fuel covers it. -/
theorem highGroups_decode : ∀ (fuel v a : Nat), v ≤ fuel →
    List.foldl (fun acc b => acc * 128 + b % 128) a (highGroups fuel v).reverse =
      a * 128 ^ (highGroups fuel v).length + v := by
  intro fuel
  induction fuel with
  | zero =>
    intro v a hv
    interval_cases v
    simp [highGroups]
  | succ f ih =>
    intro v a hv
    by_cases hz : v = 0
    · simp [highGroups, hz]
    · rw [highGroups, if_neg hz]
      simp only [List.reverse_cons, List.foldl_append, List.length_cons]
      have hle : v >>> 7 ≤ f := by
        rw [shiftRight7_eq]
        have := Nat.div_lt_self (Nat.pos_of_ne_zero hz) (show 1 < 128 by norm_num)
        omega
      rw [ih _ a hle]
      simp only [List.foldl_cons, List.foldl_nil]
      have hmod : (v % 128 + 128) % 128 = v % 128 := by omega
      rw [hmod, shiftRight7_eq, pow_succ]
      have h1 : v / 128 * 128 + v % 128 = v := by omega
      generalize (highGroups f (v / 128)).length = k
      have h2 : (a * 128 ^ k + v / 128) * 128 + v % 128 =
          a * (128 ^ k * 128) + (v / 128 * 128 + v % 128) := by ring
      rw [h2, h1]

/-- Closed form of `writeVariableLength` for a positive value: the reversed
high-bit groups of the shifted value followed by the low 7 bits. -/
theorem wvl_eq (v : Nat) (h : v ≠ 0) :
    writeVariableLength v = (highGroups (v - 1) (v >>> 7)).reverse ++ [v % 128] := by
  obtain ⟨n, rfl⟩ : ∃ n, v = n + 1 := ⟨v - 1, by omega⟩
  rw [writeVariableLength, if_neg h, vlqLoop, if_neg h]
  simp only [List.length_nil, Nat.lt_irrefl, if_false, List.nil_append, Nat.add_zero]
  rw [vlqLoop_append _ _ _ (by simp)]
  simp

/-- Claim C6: for every value in the MIDI VLQ range, decoding the encoding
of `v` yields `v`; zero encodes as the single byte `0x00`; and values at
least 128 encode to at least two bytes, all but the last having the high bit
set (and fitting in a byte). -/
theorem c6_vlq (v : Nat) (h : v ≤ 0x0FFFFFFF) :
    vlqDecode (writeVariableLength v) = v ∧
    writeVariableLength 0 = [0] ∧
    (128 ≤ v →
      2 ≤ (writeVariableLength v).length ∧
      ∀ b ∈ (writeVariableLength v).dropLast, 128 ≤ b ∧ b < 256) := by
  refine ⟨?_, by decide, ?_⟩
  · by_cases hz : v = 0
    · subst hz; decide
    · rw [wvl_eq v hz]
      unfold vlqDecode
      rw [List.foldl_append]
      have hle : v >>> 7 ≤ v - 1 := by
        rw [shiftRight7_eq]
        have := Nat.div_lt_self (Nat.pos_of_ne_zero hz) (show 1 < 128 by norm_num)
        omega
      rw [highGroups_decode _ _ 0 hle]
      simp only [List.foldl_cons, List.foldl_nil, Nat.zero_mul, Nat.zero_add]
      rw [shiftRight7_eq]
      omega
  · intro hv
    have hz : v ≠ 0 := by omega
    rw [wvl_eq v hz]
    constructor
    · have h128 : v >>> 7 ≠ 0 := by rw [shiftRight7_eq]; omega
      have hne : highGroups (v - 1) (v >>> 7) ≠ [] := by
        obtain ⟨f, hf⟩ : ∃ f, v - 1 = f + 1 := ⟨v - 2, by omega⟩
        rw [hf, highGroups, if_neg h128]
        simp
      simp only [List.length_append, List.length_reverse, List.length_cons,
        List.length_nil]
      have := List.length_pos.mpr hne
      omega
    · intro b hb
      rw [List.dropLast_concat] at hb
      exact highGroups_mem_bounds _ _ _ (List.mem_reverse.mp hb)

/-- Witness for C6 at the concrete value 300. -/
theorem c6_vlq_witness :
    300 ≤ 0x0FFFFFFF ∧
    (vlqDecode (writeVariableLength 300) = 300 ∧
     writeVariableLength 0 = [0] ∧
     (128 ≤ 300 →
       2 ≤ (writeVariableLength 300).length ∧
       ∀ b ∈ (writeVariableLength 300).dropLast, 128 ≤ b ∧ b < 256)) :=
  ⟨by decide, c6_vlq 300 (by decide)⟩

/-!  C7. -/

/-- The source tick table agrees with the spec's tick values. -/
theorem ticks_eq (d : Duration) : durationToTicks d = specTicks d := by
  cases d <;> rfl

/-- The event fold of `createTrackChunk` agrees with the spec-side event
stream whenever every non-rest pitch resolves to a MIDI number. -/
theorem events_eq : ∀ (notes : List NoteG) (acc : Nat),
    (∀ n ∈ notes, n.pitch ≠ "rest" → (pitchToMidiNumber n.pitch).isSome = true) →
    createTrackChunkEvents notes acc = specNoteEvents notes acc := by
  intro notes
  induction notes with
  | nil => intro acc _; rfl
  | cons note rest ih =>
    intro acc h
    by_cases hp : note.pitch = "rest"
    · simp only [createTrackChunkEvents, specNoteEvents, if_pos hp, ticks_eq]
      exact ih _ (fun n hn hr => h n (List.mem_cons_of_mem _ hn) hr)
    · have hs := h note (List.mem_cons_self _ _) hp
      obtain ⟨m, hm⟩ := Option.isSome_iff_exists.mp hs
      simp only [createTrackChunkEvents, specNoteEvents, if_neg hp, hm, Option.getD_some,
        ticks_eq]
      rw [ih _ (fun n hn hr => h n (List.mem_cons_of_mem _ hn) hr)]

/-- Claim C7: for a track built from a voice's measures in order (every
non-rest pitch resolvable), the event bytes are exactly the spec's stream:
per non-rest note a Note-On (`0x90`, MIDI number, velocity 100) at the
accumulated rest-delta followed by a Note-Off (`0x80`, MIDI number,
velocity 0) at the note's tick duration, rests emitting nothing; and the
tick table is quarter 96, whole 384, half 192, eighth 48, sixteenth 24. -/
theorem c7_track_events (measures : List MeasureG)
    (h : ∀ n ∈ (measures.map MeasureG.notes).flatten, n.pitch ≠ "rest" →
      (pitchToMidiNumber n.pitch).isSome = true) :
    createTrackChunkEvents ((measures.map MeasureG.notes).flatten) 0 =
      specNoteEvents ((measures.map MeasureG.notes).flatten) 0 ∧
    durationToTicks .quarter = 96 ∧ durationToTicks .whole = 384 ∧
    durationToTicks .half = 192 ∧ durationToTicks .eighth = 48 ∧
    durationToTicks .sixteenth = 24 :=
  ⟨events_eq _ 0 h, rfl, rfl, rfl, rfl, rfl⟩

/-- Witness for C7 on a concrete one-measure voice (note, rest, note). -/
theorem c7_track_events_witness :
    (∀ n ∈ (([⟨[⟨"C4", Duration.quarter⟩, ⟨"rest", Duration.quarter⟩,
          ⟨"E4", Duration.half⟩]⟩] : List MeasureG).map MeasureG.notes).flatten,
      n.pitch ≠ "rest" → (pitchToMidiNumber n.pitch).isSome = true) ∧
    (createTrackChunkEvents
        (([⟨[⟨"C4", Duration.quarter⟩, ⟨"rest", Duration.quarter⟩,
            ⟨"E4", Duration.half⟩]⟩] : List MeasureG).map MeasureG.notes).flatten 0 =
      specNoteEvents
        (([⟨[⟨"C4", Duration.quarter⟩, ⟨"rest", Duration.quarter⟩,
            ⟨"E4", Duration.half⟩]⟩] : List MeasureG).map MeasureG.notes).flatten 0 ∧
     durationToTicks .quarter = 96 ∧ durationToTicks .whole = 384 ∧
     durationToTicks .half = 192 ∧ durationToTicks .eighth = 48 ∧
     durationToTicks .sixteenth = 24) :=
  ⟨by decide, c7_track_events _ (by decide)⟩

/-!  C8. -/

/-- Claim C8: for every pitch class known to the offset table and every
voice range, `findOptimalMidi` returns the pitch at the first octave in
2..6 whose MIDI number lies in the inclusive range, or the pitch at the
range's default octave when no octave in 2..6 qualifies; in particular `la`
in C major (pitch class A, offset 9) for the Bass range [36, 60] resolves to
45, inside the range. -/
theorem c8_octave_search (noteName : List Char) (noteIndex : Nat) (range : VocalRange)
    (h : pitchClassToMidiOffset.lookup noteName = some noteIndex) :
    ((∃ octave, 2 ≤ octave ∧ octave ≤ 6 ∧
        (range.min ≤ 12 * (octave + 1) + noteIndex ∧
         12 * (octave + 1) + noteIndex ≤ range.max) ∧
        (∀ o, 2 ≤ o → o < octave →
          ¬(range.min ≤ 12 * (o + 1) + noteIndex ∧
            12 * (o + 1) + noteIndex ≤ range.max)) ∧
        findOptimalMidi noteName range = some (12 * (octave + 1) + noteIndex)) ∨
      ((∀ o, 2 ≤ o → o ≤ 6 →
          ¬(range.min ≤ 12 * (o + 1) + noteIndex ∧
            12 * (o + 1) + noteIndex ≤ range.max)) ∧
        findOptimalMidi noteName range =
          some (12 * (range.defaultOctave + 1) + noteIndex))) ∧
    findOptimalMidi (s2l "A") (vocalRanges .bass) = some 45 := by
  refine ⟨?_, by decide⟩
  unfold findOptimalMidi
  rw [h, show List.range' 2 5 = [2, 3, 4, 5, 6] from rfl]
  by_cases h2 : range.min ≤ 12 * (2 + 1) + noteIndex ∧ 12 * (2 + 1) + noteIndex ≤ range.max
  · left
    refine ⟨2, by norm_num, by norm_num, h2, fun o ho1 ho2 => by omega, ?_⟩
    simp [List.find?, h2]
  by_cases h3 : range.min ≤ 12 * (3 + 1) + noteIndex ∧ 12 * (3 + 1) + noteIndex ≤ range.max
  · left
    refine ⟨3, by norm_num, by norm_num, h3, ?_, ?_⟩
    · intro o ho1 ho2
      interval_cases o
      exact h2
    · simp [List.find?, h2, h3]
  by_cases h4 : range.min ≤ 12 * (4 + 1) + noteIndex ∧ 12 * (4 + 1) + noteIndex ≤ range.max
  · left
    refine ⟨4, by norm_num, by norm_num, h4, ?_, ?_⟩
    · intro o ho1 ho2
      interval_cases o
      · exact h2
      · exact h3
    · simp [List.find?, h2, h3, h4]
  by_cases h5 : range.min ≤ 12 * (5 + 1) + noteIndex ∧ 12 * (5 + 1) + noteIndex ≤ range.max
  · left
    refine ⟨5, by norm_num, by norm_num, h5, ?_, ?_⟩
    · intro o ho1 ho2
      interval_cases o
      · exact h2
      · exact h3
      · exact h4
    · simp [List.find?, h2, h3, h4, h5]
  by_cases h6 : range.min ≤ 12 * (6 + 1) + noteIndex ∧ 12 * (6 + 1) + noteIndex ≤ range.max
  · left
    refine ⟨6, by norm_num, by norm_num, h6, ?_, ?_⟩
    · intro o ho1 ho2
      interval_cases o
      · exact h2
      · exact h3
      · exact h4
      · exact h5
    · simp [List.find?, h2, h3, h4, h5, h6]
  · right
    refine ⟨?_, ?_⟩
    · intro o ho1 ho2
      interval_cases o
      · exact h2
      · exact h3
      · exact h4
      · exact h5
      · exact h6
    · simp [List.find?, h2, h3, h4, h5, h6]

/-- Witness for C8: la (pitch class A, offset 9) in the Bass range. -/
theorem c8_octave_search_witness :
    pitchClassToMidiOffset.lookup (s2l "A") = some 9 ∧
    (((∃ octave, 2 ≤ octave ∧ octave ≤ 6 ∧
        ((vocalRanges .bass).min ≤ 12 * (octave + 1) + 9 ∧
         12 * (octave + 1) + 9 ≤ (vocalRanges .bass).max) ∧
        (∀ o, 2 ≤ o → o < octave →
          ¬((vocalRanges .bass).min ≤ 12 * (o + 1) + 9 ∧
            12 * (o + 1) + 9 ≤ (vocalRanges .bass).max)) ∧
        findOptimalMidi (s2l "A") (vocalRanges .bass) = some (12 * (octave + 1) + 9)) ∨
      ((∀ o, 2 ≤ o → o ≤ 6 →
          ¬((vocalRanges .bass).min ≤ 12 * (o + 1) + 9 ∧
            12 * (o + 1) + 9 ≤ (vocalRanges .bass).max)) ∧
        findOptimalMidi (s2l "A") (vocalRanges .bass) =
          some (12 * ((vocalRanges .bass).defaultOctave + 1) + 9))) ∧
    findOptimalMidi (s2l "A") (vocalRanges .bass) = some 45) :=
  ⟨by decide, c8_octave_search (s2l "A") 9 (vocalRanges .bass) (by decide)⟩

/-!  C4. -/

/-- Lemma: `takeWhile` passes over a replicated block of characters satisfying the
predicate. -/
theorem takeWhile_replicate_append (p : Char → Bool) (c : Char) (hc : p c = true) :
    ∀ (n : Nat) (t : List Char),
      (List.replicate n c ++ t).takeWhile p = List.replicate n c ++ t.takeWhile p := by
  intro n
  induction n with
  | zero => intro t; simp
  | succ m ih => intro t; simp [List.replicate_succ, List.takeWhile_cons, hc, ih]

/-- Lemma: `dropWhile` consumes a replicated block of characters satisfying the
predicate. -/
theorem dropWhile_replicate_append (p : Char → Bool) (c : Char) (hc : p c = true) :
    ∀ (n : Nat) (t : List Char),
      (List.replicate n c ++ t).dropWhile p = t.dropWhile p := by
  intro n
  induction n with
  | zero => intro t; simp
  | succ m ih => intro t; simp [List.replicate_succ, List.dropWhile_cons, hc, ih]

/-- Lemma: `takeWhile` stops immediately when the head fails the predicate. -/
theorem takeWhile_eq_nil_head (p : Char → Bool) (l : List Char)
    (h : ∀ c, l.head? = some c → p c = false) : l.takeWhile p = [] := by
  cases l with
  | nil => rfl
  | cons a t => simp [List.takeWhile_cons, h a rfl]

/-- Lemma: `dropWhile` keeps the whole list when the head fails the predicate. -/
theorem dropWhile_eq_self_head (p : Char → Bool) (l : List Char)
    (h : ∀ c, l.head? = some c → p c = false) : l.dropWhile p = l := by
  cases l with
  | nil => rfl
  | cons a t => simp [List.dropWhile_cons, h a rfl]

/-- Stripping a marker-safe body followed by commas followed by apostrophes:
the up-mark pass removes exactly the apostrophes and the down-mark pass
exactly the commas. -/
theorem strip_marks (L : List Char) (hL : lastCharSafe L = true) (nd nu : Nat) :
    stripTrailing isUpMark (L ++ List.replicate nd ',' ++ List.replicate nu apos) =
      (L ++ List.replicate nd ',', nu) ∧
    stripTrailing isDownMark (L ++ List.replicate nd ',') = (L, nd) := by
  have hsafe : ∀ c, L.reverse.head? = some c →
      isUpMark c = false ∧ isDownMark c = false := by
    intro c hc
    unfold lastCharSafe at hL
    rw [hc] at hL
    simp only [Bool.and_eq_true, Bool.not_eq_true'] at hL
    exact hL
  have hupL : L.reverse.takeWhile isUpMark = [] :=
    takeWhile_eq_nil_head _ _ (fun c hc => (hsafe c hc).1)
  have hdownL : L.reverse.takeWhile isDownMark = [] :=
    takeWhile_eq_nil_head _ _ (fun c hc => (hsafe c hc).2)
  have hupLd : L.reverse.dropWhile isUpMark = L.reverse :=
    dropWhile_eq_self_head _ _ (fun c hc => (hsafe c hc).1)
  have hdownLd : L.reverse.dropWhile isDownMark = L.reverse :=
    dropWhile_eq_self_head _ _ (fun c hc => (hsafe c hc).2)
  have hupMid : (List.replicate nd ',' ++ L.reverse).takeWhile isUpMark = [] := by
    cases nd with
    | zero => simpa using hupL
    | succ m =>
      simp [List.replicate_succ, List.takeWhile_cons,
        show isUpMark ',' = false from by decide]
  have hupMidd : (List.replicate nd ',' ++ L.reverse).dropWhile isUpMark =
      List.replicate nd ',' ++ L.reverse := by
    cases nd with
    | zero => simpa using hupLd
    | succ m =>
      simp [List.replicate_succ, List.dropWhile_cons,
        show isUpMark ',' = false from by decide]
  constructor
  · unfold stripTrailing
    rw [List.reverse_append, List.reverse_append, List.reverse_replicate,
      List.reverse_replicate,
      takeWhile_replicate_append isUpMark apos (by decide),
      dropWhile_replicate_append isUpMark apos (by decide),
      hupMid, hupMidd]
    simp
  · unfold stripTrailing
    rw [List.reverse_append, List.reverse_replicate,
      takeWhile_replicate_append isDownMark ',' (by decide),
      dropWhile_replicate_append isDownMark ',' (by decide),
      hdownL, hdownLd]
    simp

/-- Every key of `solfegeVariations` is non-empty and ends in a non-marker
character. -/
theorem variation_key_safe (L s : List Char)
    (h : solfegeVariations.lookup L = some s) :
    L ≠ [] ∧ lastCharSafe L = true := by
  have hmem := lookup_mem_keys _ _ _ h
  simp only [solfegeVariations, List.map_cons, List.map_nil] at hmem
  fin_cases hmem <;> exact ⟨by decide, by decide⟩

/-- Resolving a token built as a syllable, then commas, then apostrophes:
`parseNoteToken` strips all the markers and adds `12 * (ups − downs)` to the
base MIDI number. -/
theorem parseNoteToken_marks (syl L s nn : List Char) (km : KeyMap) (part : PartName)
    (base : Nat) (nd nu : Nat)
    (hmap : syl.map Char.toLower = L)
    (hne : L ≠ [])
    (hsafe : lastCharSafe L = true)
    (hlk : solfegeVariations.lookup L = some s)
    (hkm : km.lookup s = some nn)
    (hfm : findOptimalMidi nn (vocalRanges part) = some base) :
    parseNoteToken (syl ++ List.replicate nd ',' ++ List.replicate nu apos) km part =
      some { solfege := s, noteName := nn,
             midiNumber := some ((base : Int) + ((nu : Int) - (nd : Int)) * 12),
             part := part,
             octave := some
               (Int.fdiv ((base : Int) + ((nu : Int) - (nd : Int)) * 12) 12 - 1),
             isRest := false } := by
  have hsyl : syl ≠ [] := by
    intro hh
    exact hne (by simp [← hmap, hh])
  have htok : (syl ++ List.replicate nd ',' ++ List.replicate nu apos).map Char.toLower
      = L ++ List.replicate nd ',' ++ List.replicate nu apos := by
    simp only [List.map_append, hmap, List.map_replicate]
    rfl
  obtain ⟨hstrip1, hstrip2⟩ := strip_marks L hsafe nd nu
  unfold parseNoteToken
  rw [if_neg (by simp [hsyl])]
  simp only [htok, hstrip1, hstrip2, hlk, hkm]
  unfold solfegeToMidiNote
  simp only [hkm, hfm]
  simp

/-- Claim C4 (amended): trailing octave markers resolve as claimed only when
all down-markers precede all up-markers.  For every valid syllable followed
by `nd` commas and then `nu` apostrophes, `parseNoteToken` returns the base
in-range MIDI number plus `12 * (nu − nd)`.  (An up-marker occurring before
a down-marker, as in `d',`, makes the token unparseable instead — see the
counterexample.) -/
theorem c4_amended (syl s nn : List Char) (km : KeyMap) (part : PartName)
    (base : Nat) (nd nu : Nat)
    (h1 : solfegeVariations.lookup (syl.map Char.toLower) = some s)
    (h2 : km.lookup s = some nn)
    (h3 : findOptimalMidi nn (vocalRanges part) = some base) :
    parseNoteToken (syl ++ List.replicate nd ',' ++ List.replicate nu apos) km part =
      some { solfege := s, noteName := nn,
             midiNumber := some ((base : Int) + ((nu : Int) - (nd : Int)) * 12),
             part := part,
             octave := some
               (Int.fdiv ((base : Int) + ((nu : Int) - (nd : Int)) * 12) 12 - 1),
             isRest := false } := by
  obtain ⟨hne, hsafe⟩ := variation_key_safe _ _ h1
  exact parseNoteToken_marks syl (syl.map Char.toLower) s nn km part base nd nu rfl
    hne hsafe h1 h2 h3

/-- Claim C4 (counterexample): the token `d’,` — an apostrophe-equivalent
up-mark followed by a comma, net shift zero — does not resolve to
MIDI 60 as the claim requires; it fails to parse entirely, because the
up-mark pass runs before (not interleaved with) the down-mark pass. -/
theorem c4_counterexample :
    parseNoteToken (s2l "d" ++ [apos, ',']) keyMapC PartName.soprano = none := by
  decide

/-- Witness for C4 (amended) at `d` + one comma + two apostrophes. -/
theorem c4_amended_witness :
    solfegeVariations.lookup ((s2l "d").map Char.toLower) = some (s2l "do") ∧
    keyMapC.lookup (s2l "do") = some (s2l "C") ∧
    findOptimalMidi (s2l "C") (vocalRanges .soprano) = some 60 ∧
    parseNoteToken (s2l "d" ++ List.replicate 1 ',' ++ List.replicate 2 apos)
        keyMapC PartName.soprano =
      some { solfege := s2l "do", noteName := s2l "C",
             midiNumber := some ((60 : Int) + ((2 : Int) - (1 : Int)) * 12),
             part := .soprano,
             octave := some
               (Int.fdiv ((60 : Int) + ((2 : Int) - (1 : Int)) * 12) 12 - 1),
             isRest := false } :=
  ⟨by decide, by decide, by decide,
   c4_amended (s2l "d") (s2l "do") (s2l "C") keyMapC PartName.soprano 60 1 2
     (by decide) (by decide) (by decide)⟩

/-!  C5. -/

/-- Taking as many elements as `takeWhile` keeps recovers the `takeWhile`
run itself. -/
theorem take_takeWhile_len (p : Char → Bool) :
    ∀ l : List Char, l.take (l.takeWhile p).length = l.takeWhile p := by
  intro l
  induction l with
  | nil => rfl
  | cons a t ih =>
    by_cases h : p a
    · simp [List.takeWhile_cons, h, ih]
    · simp [List.takeWhile_cons, h]

/-- Taking `1 + k` elements of a cons takes `k` from the tail. -/
theorem take_one_add (a : Char) (l : List Char) (k : Nat) :
    (a :: l).take (1 + k) = a :: l.take k := by
  rw [Nat.add_comm]
  rfl

/-- The six concrete separator characters of the model. -/
theorem sep_cases (d : Char) (h : isSepChar d = true) :
    d = ' ' ∨ d = '\t' ∨ d = '\r' ∨ d = '\n' ∨ d = '.' ∨ d = ':' := by
  simp only [isSepChar, Char.isWhitespace, Bool.or_eq_true, beq_iff_eq,
    decide_eq_true_eq] at h
  tauto

/-- No separator character lowercases to `o` or `e` (so the longer
`soprano`/`sop`/`tenor`/`ten` alternatives cannot match past a single
letter). -/
theorem sep_toLower_facts (d : Char) (h : isSepChar d = true) :
    (d.toLower == 'o') = false ∧ (d.toLower == 'e') = false := by
  rcases sep_cases d h with rfl | rfl | rfl | rfl | rfl | rfl <;>
    exact ⟨by decide, by decide⟩

/-- The soprano pattern on a single-letter `s` line with a separator second
character matches the `s` alternative with the greedy separator run. -/
theorem matchAlts_sop (c d : Char) (rest : List Char)
    (hc1 : (c.toLower == 's') = true)
    (hsep : isSepChar d = true) (ho : (d.toLower == 'o') = false) :
    matchAlts (c :: d :: rest) [s2l "soprano", s2l "sop", s2l "s"] =
      some (s2l "s", 1 + ((d :: rest).takeWhile isSepChar).length) := by
  simp [matchAlts, startsWithCI, hc1, ho, List.takeWhile_cons, hsep, s2l,
    Nat.add_comm]

/-- The tenor pattern on a single-letter `t` line with a separator second
character matches the `t` alternative with the greedy separator run. -/
theorem matchAlts_ten (c d : Char) (rest : List Char)
    (hc1 : (c.toLower == 't') = true)
    (hsep : isSepChar d = true) (he : (d.toLower == 'e') = false) :
    matchAlts (c :: d :: rest) [s2l "tenor", s2l "ten", s2l "t"] =
      some (s2l "t", 1 + ((d :: rest).takeWhile isSepChar).length) := by
  simp [matchAlts, startsWithCI, hc1, he, List.takeWhile_cons, hsep, s2l,
    Nat.add_comm]

/-- A pattern whose alternatives all start with a letter other than the
line's first character never matches (soprano variant). -/
theorem matchAlts_sop_ne (c : Char) (tl : List Char)
    (h : (c.toLower == 's') = false) :
    matchAlts (c :: tl) [s2l "soprano", s2l "sop", s2l "s"] = none := by
  simp [matchAlts, startsWithCI, h, s2l]

/-- Non-matching alto pattern. -/
theorem matchAlts_alt_ne (c : Char) (tl : List Char)
    (h : (c.toLower == 'a') = false) :
    matchAlts (c :: tl) [s2l "alto", s2l "alt", s2l "a"] = none := by
  simp [matchAlts, startsWithCI, h, s2l]

/-- Non-matching tenor pattern. -/
theorem matchAlts_ten_ne (c : Char) (tl : List Char)
    (h : (c.toLower == 't') = false) :
    matchAlts (c :: tl) [s2l "tenor", s2l "ten", s2l "t"] = none := by
  simp [matchAlts, startsWithCI, h, s2l]

/-- Non-matching bass pattern. -/
theorem matchAlts_bas_ne (c : Char) (tl : List Char)
    (h : (c.toLower == 'b') = false) :
    matchAlts (c :: tl) [s2l "bass", s2l "bas", s2l "b"] = none := by
  simp [matchAlts, startsWithCI, h, s2l]

/-- Soprano pattern on a single-letter `s` line with no separator after the
letter: no match (the `[\s.:]+` run is empty). -/
theorem matchAlts_sop_nosep (c d : Char) (rest : List Char)
    (hc1 : (c.toLower == 's') = true) (ho : (d.toLower == 'o') = false)
    (hnsep : isSepChar d = false) :
    matchAlts (c :: d :: rest) [s2l "soprano", s2l "sop", s2l "s"] = none := by
  simp [matchAlts, startsWithCI, hc1, ho, List.takeWhile_cons, hnsep, s2l]

/-- Tenor pattern on a single-letter `t` line with no separator after the
letter: no match. -/
theorem matchAlts_ten_nosep (c d : Char) (rest : List Char)
    (hc1 : (c.toLower == 't') = true) (he : (d.toLower == 'e') = false)
    (hnsep : isSepChar d = false) :
    matchAlts (c :: d :: rest) [s2l "tenor", s2l "ten", s2l "t"] = none := by
  simp [matchAlts, startsWithCI, hc1, he, List.takeWhile_cons, hnsep, s2l]

/-- Claim C5 (counterexample): `"s. d r"` (letter followed by `.`) and
`"s- d r"` (letter followed by `-`) are treated as note lines although the
claim requires them to be voice indicators, while `"s : d r"` (letter
followed by a space, not one of the claim's four separators) is treated as a
voice indicator. -/
theorem c5_counterexample :
    detectPartIndicator (s2l "s. d r") = none ∧
    detectPartIndicator (s2l "s- d r") = none ∧
    (detectPartIndicator (s2l "s : d r")).isSome = true := by
  refine ⟨by decide, by decide, by decide⟩

/-- Claim C5 (amended): a line starting with a single letter `s` or `t`
(either case) is a voice indicator exactly when the letter is immediately
followed by a non-empty run of characters from the class
whitespace/`.`/`:` that contains at least one colon — the match then covers
the letter plus the whole greedy run; a bare letter, or a letter followed by
any other character (in particular `-` or `=`, excluding the `o`/`e` that
would begin a longer voice-name alternative), is a note line. -/
theorem c5_amended (c d : Char) (rest : List Char)
    (hc : c = 's' ∨ c = 'S' ∨ c = 't' ∨ c = 'T') :
    detectPartIndicator [c] = none ∧
    (isSepChar d = true →
      detectPartIndicator (c :: d :: rest) =
        (if containsChar ((d :: rest).takeWhile isSepChar) ':' = true
         then some (partFor c, 1 + ((d :: rest).takeWhile isSepChar).length)
         else none)) ∧
    (isSepChar d = false → d.toLower ≠ 'o' → d.toLower ≠ 'e' →
      detectPartIndicator (c :: d :: rest) = none) := by
  rcases hc with rfl | rfl | rfl | rfl
  · refine ⟨by decide, fun hsep => ?_, fun hnsep hno hne2 => ?_⟩
    · obtain ⟨ho, he⟩ := sep_toLower_facts d hsep
      have hm := matchAlts_sop 's' d rest (by decide) hsep ho
      unfold detectPartIndicator partPatterns
      simp only [dpiLoop, hm]
      simp [s2l, take_one_add, take_takeWhile_len, containsChar, partFor,
        List.any_cons]
    · have hno' : (d.toLower == 'o') = false := by simp [hno]
      have hne2' : (d.toLower == 'e') = false := by simp [hne2]
      have h1 := matchAlts_sop_nosep 's' d rest (by decide) hno' hnsep
      have h2 := matchAlts_alt_ne 's' (d :: rest) (by decide)
      have h3 := matchAlts_ten_ne 's' (d :: rest) (by decide)
      have h4 := matchAlts_bas_ne 's' (d :: rest) (by decide)
      unfold detectPartIndicator partPatterns
      simp only [dpiLoop, h1, h2, h3, h4]
  · refine ⟨by decide, fun hsep => ?_, fun hnsep hno hne2 => ?_⟩
    · obtain ⟨ho, he⟩ := sep_toLower_facts d hsep
      have hm := matchAlts_sop 'S' d rest (by decide) hsep ho
      unfold detectPartIndicator partPatterns
      simp only [dpiLoop, hm]
      simp [s2l, take_one_add, take_takeWhile_len, containsChar, partFor,
        List.any_cons]
    · have hno' : (d.toLower == 'o') = false := by simp [hno]
      have hne2' : (d.toLower == 'e') = false := by simp [hne2]
      have h1 := matchAlts_sop_nosep 'S' d rest (by decide) hno' hnsep
      have h2 := matchAlts_alt_ne 'S' (d :: rest) (by decide)
      have h3 := matchAlts_ten_ne 'S' (d :: rest) (by decide)
      have h4 := matchAlts_bas_ne 'S' (d :: rest) (by decide)
      unfold detectPartIndicator partPatterns
      simp only [dpiLoop, h1, h2, h3, h4]
  · refine ⟨by decide, fun hsep => ?_, fun hnsep hno hne2 => ?_⟩
    · obtain ⟨ho, he⟩ := sep_toLower_facts d hsep
      have h1 := matchAlts_sop_ne 't' (d :: rest) (by decide)
      have h2 := matchAlts_alt_ne 't' (d :: rest) (by decide)
      have hm := matchAlts_ten 't' d rest (by decide) hsep he
      unfold detectPartIndicator partPatterns
      simp only [dpiLoop, h1, h2, hm]
      simp [s2l, take_one_add, take_takeWhile_len, containsChar, partFor,
        List.any_cons]
    · have hno' : (d.toLower == 'o') = false := by simp [hno]
      have hne2' : (d.toLower == 'e') = false := by simp [hne2]
      have h1 := matchAlts_sop_ne 't' (d :: rest) (by decide)
      have h2 := matchAlts_alt_ne 't' (d :: rest) (by decide)
      have h3 := matchAlts_ten_nosep 't' d rest (by decide) hne2' hnsep
      have h4 := matchAlts_bas_ne 't' (d :: rest) (by decide)
      unfold detectPartIndicator partPatterns
      simp only [dpiLoop, h1, h2, h3, h4]
  · refine ⟨by decide, fun hsep => ?_, fun hnsep hno hne2 => ?_⟩
    · obtain ⟨ho, he⟩ := sep_toLower_facts d hsep
      have h1 := matchAlts_sop_ne 'T' (d :: rest) (by decide)
      have h2 := matchAlts_alt_ne 'T' (d :: rest) (by decide)
      have hm := matchAlts_ten 'T' d rest (by decide) hsep he
      unfold detectPartIndicator partPatterns
      simp only [dpiLoop, h1, h2, hm]
      simp [s2l, take_one_add, take_takeWhile_len, containsChar, partFor,
        List.any_cons]
    · have hno' : (d.toLower == 'o') = false := by simp [hno]
      have hne2' : (d.toLower == 'e') = false := by simp [hne2]
      have h1 := matchAlts_sop_ne 'T' (d :: rest) (by decide)
      have h2 := matchAlts_alt_ne 'T' (d :: rest) (by decide)
      have h3 := matchAlts_ten_nosep 'T' d rest (by decide) hne2' hnsep
      have h4 := matchAlts_bas_ne 'T' (d :: rest) (by decide)
      unfold detectPartIndicator partPatterns
      simp only [dpiLoop, h1, h2, h3, h4]

/-- Witness for C5 (amended) at `s` followed by a colon. -/
theorem c5_amended_witness :
    ('s' = 's' ∨ 's' = 'S' ∨ 's' = 't' ∨ 's' = 'T') ∧
    (detectPartIndicator [( 's' )] = none ∧
     (isSepChar ':' = true →
       detectPartIndicator ('s' :: ':' :: s2l " l t") =
         (if containsChar ((':' :: s2l " l t").takeWhile isSepChar) ':' = true
          then some (partFor 's', 1 + ((':' :: s2l " l t").takeWhile isSepChar).length)
          else none)) ∧
     (isSepChar ':' = false → Char.toLower ':' ≠ 'o' → Char.toLower ':' ≠ 'e' →
       detectPartIndicator ('s' :: ':' :: s2l " l t") = none)) :=
  ⟨Or.inl rfl, c5_amended 's' ':' (s2l " l t") (Or.inl rfl)⟩

end MarkII
